import Mathlib

set_option maxRecDepth 4000

/-!
Shallow embedding of the cryptographic core of the `multi-party-sig` repository
(threshold ECDSA over secp256k1), together with theorems settling a list of
claims about it.

Modelling conventions:

* Machine integers become `ℕ`/`ℤ` (Go `uint32` casts are `% 2 ^ 32`, written out
  where they matter); byte slices become `List (Fin 256)`.
* The secp256k1 scalar field is `ZMod secpQ` where `secpQ` is the group order.
* The secp256k1 group is cyclic of prime order `secpQ`, hence a free rank-one
  module over the scalar field.  Code that only uses the group operations
  (`Add`, scalar `Act`, `ActOnBase`, identity, equality) is embedded over an
  arbitrary `AddCommGroup` that is a `Module` over the scalar field, with the
  base point an arbitrary module element `g`; `ActOnBase s = s • g`,
  `Act s p = s • p`, the identity point is `0`.
* The byte-level point serialization (`pkg/math/curve/marshal.go`) works with
  affine coordinates in the secp256k1 base field; it is embedded over a field
  modulus parameter `P` with the source's instantiation `P := secpP`
  (the fixed 256-bit prime of the `decred` secp256k1 library).
* External collaborators (Paillier validation, Pedersen validation, the BIP32
  scalar derivation, the CBOR encoder, hashing, sampling, Paillier encryption)
  are modelled as oracle parameters ("environments"): the repository calls them
  through opaque interfaces and the claims only depend on how their results are
  used.
* Fallible Go code returns `Except`/`Option`; a Go panic (out-of-bounds index,
  nil dereference) is modelled by `Option` with `none` for the panic.
-/

namespace MPS

/-! ## Bytes and big-endian encodings -/

/-- A single byte. -/
abbrev Byte := Fin 256

/-- Truncate a natural number to a byte (the low 8 bits). -/
def mkByte (n : ℕ) : Byte := ⟨n % 256, Nat.mod_lt n (by norm_num)⟩

/-- `digitsBE k n` is the `k`-byte big-endian encoding of `n % 256 ^ k`,
as produced by `binary.BigEndian.PutUint32` / `FieldVal.PutBytesUnchecked`. -/
def digitsBE : ℕ → ℕ → List Byte
  | 0, _ => []
  | k + 1, n => digitsBE k (n / 256) ++ [mkByte n]

/-- Big-endian interpretation of a byte list, as done by
`binary.BigEndian.Uint32` and `FieldVal.SetByteSlice`. -/
def fromBytesBE (l : List Byte) : ℕ :=
  l.foldl (fun acc b => 256 * acc + b.val) 0

/-- The 4-byte big-endian encoding of `uint32(n)`
(`binary.BigEndian.PutUint32`; the Go cast truncates to 32 bits). -/
def be32 (n : ℕ) : List Byte := digitsBE 4 n

/-! ## The secp256k1 scalar field -/

/-- The order of the secp256k1 group (the modulus of `curve.Scalar`). -/
def secpQ : ℕ :=
  115792089237316195423570985008687907852837564279074904382605163141518161494337

instance : NeZero secpQ := ⟨by norm_num [secpQ]⟩

/-- `curve.Scalar`: an element of the scalar field 𝔽_q. -/
abbrev Scalar := ZMod secpQ

/-- `curve.MakeInt`: the canonical integer value of a scalar. -/
def makeInt (s : Scalar) : ℤ := (s.val : ℤ)

/-! ## `pkg/math/polynomial`: polynomials and their exponent image

The group is an arbitrary module `G` over the scalar field with base point
`g` (see the header).  `curve.Point` arithmetic used by this package is
`Add = +`, `Act = •`, `ActOnBase s = s • g`, `NewPoint = 0`. -/

/-- The scalar `Polynomial` type: `coefficients` is `[a₀, a₁, …, a_t]`.
The constructor `NewPolynomial` always produces `t + 1 ≥ 1` coefficients,
so the list is nonempty for every value the source ever builds. -/
structure Polynomial where
  coefficients : List Scalar

/-- Modelled from the spec: the scalar polynomial evaluation
(`pkg/math/polynomial/polynomial.go` is not among the provided sources).
The spec states "f(x) is computed by Horner's scheme from highest
coefficient down". -/
def Polynomial.Evaluate (p : Polynomial) (x : Scalar) : Scalar :=
  p.coefficients.foldr (fun a acc => x * acc + a) 0

/-- `polynomial.Exponent`: a polynomial whose coefficients live in the group.
When `IsConstant` is true the constant coefficient is the identity and is
omitted from `Coefficients`.  The source's `group` field becomes the type
parameter `G`. -/
structure Exponent (G : Type) where
  IsConstant : Bool
  Coefficients : List G

variable {G : Type} [AddCommGroup G] [Module Scalar G] [DecidableEq G]

/-- `polynomial.NewPolynomialExponent`.  The source reads
`polynomial.coefficients[0]` (always present, see `Polynomial`); `headI`
returns that first coefficient. -/
def NewPolynomialExponent (g : G) (polynomial : Polynomial) : Exponent G :=
  { IsConstant := decide (polynomial.coefficients.headI = 0)
    Coefficients :=
      (if polynomial.coefficients.headI = 0 then polynomial.coefficients.tail
       else polynomial.coefficients).map (fun c => c • g) }

/-- `Exponent.Evaluate`: Horner evaluation on points, with one extra
multiplication by `x` when `IsConstant` (the implicit identity constant). -/
def Exponent.Evaluate (p : Exponent G) (x : Scalar) : G :=
  let result := p.Coefficients.foldr (fun c acc => x • acc + c) 0
  if p.IsConstant then x • result else result

/-- `Exponent.evaluateClassic`: the loop state is `(xPower, result)`;
`xPower` starts at `1`, or at `x` when `IsConstant`; each step does
`result += xPower • c; xPower *= x`. -/
def Exponent.evaluateClassic (p : Exponent G) (x : Scalar) : G :=
  (p.Coefficients.foldl (fun (st : Scalar × G) c => (st.1 * x, st.2 + st.1 • c))
    ((if p.IsConstant then x else 1 : Scalar), (0 : G))).2

/-- `Exponent.Degree`, a Go `int` (hence `ℤ`: the source returns
`len(Coefficients) - 1` for non-constant polynomials). -/
def Exponent.Degree (p : Exponent G) : ℤ :=
  if p.IsConstant then (p.Coefficients.length : ℤ)
  else (p.Coefficients.length : ℤ) - 1

/-- Errors of `Exponent.add`. -/
inductive AddError
  | lengthMismatch
  | isConstantMismatch
  deriving DecidableEq

/-- `Exponent.add`: componentwise addition; fails when the lengths or the
`IsConstant` flags differ.  (The source mutates `p` in place; the embedding
returns the updated polynomial.) -/
def Exponent.add (p q : Exponent G) : Except AddError (Exponent G) :=
  if p.Coefficients.length ≠ q.Coefficients.length then .error .lengthMismatch
  else if p.IsConstant ≠ q.IsConstant then .error .isConstantMismatch
  else .ok { IsConstant := p.IsConstant
             Coefficients := p.Coefficients.zipWith (· + ·) q.Coefficients }

/-- `polynomial.Sum`.  The source unconditionally reads `polynomials[0]`
before any length check: on the empty slice that access is out of bounds,
modelled by the outer `none`.  (`copy` is the identity in a pure embedding.) -/
def Sum (polynomials : List (Exponent G)) : Option (Except AddError (Exponent G)) :=
  match polynomials with
  | [] => none
  | p :: rest => some (rest.foldlM (fun summed q => summed.add q) p)

/-- `Exponent.MarshalBinary`: 4 big-endian bytes of
`uint32(len(e.Coefficients))` followed by the CBOR encoding of
`rawExponentData{IsConstant, Coefficients}`.  The CBOR encoder is an external
library, passed as the oracle `cborEnc`. -/
def Exponent.MarshalBinary (cborEnc : Bool → List G → List Byte)
    (e : Exponent G) : List Byte :=
  be32 e.Coefficients.length ++ cborEnc e.IsConstant e.Coefficients

/-! ## `pkg/math/curve/marshal.go`: compressed point serialization

The source stores points in Jacobian coordinates over the secp256k1 base
field and normalizes to affine before serializing; the embedding keeps the
normalized affine coordinates plus the identity flag.  The field arithmetic
(`FieldVal`, `DecompressY`) comes from the `decred` secp256k1 library, whose
field modulus is the fixed prime `secpP`; the definitions take the modulus
as a parameter `P` and the source instantiates `P := secpP`. -/

/-- The secp256k1 base-field prime `2 ^ 256 - 2 ^ 32 - 977`. -/
def secpP : ℕ :=
  115792089237316195423570985008687907853269984665640564039457584007908834671663

/-- An affine representation of `curve.Point` over base-field modulus `P`. -/
structure CPoint (P : ℕ) where
  isIdentity : Bool
  x : ZMod P
  y : ZMod P

/-- Errors of `Point.Marshal` / `Point.Unmarshal` / `Scalar.Unmarshal`. -/
inductive CodecError
  | identityPoint
  | tooSmall
  | badFormat
  | xOverflow
  | notOnCurve
  | scalarRange
  deriving DecidableEq

/-- `secp256k1.DecompressY`: candidate square root of `x ^ 3 + 7` computed as
`c ^ ((P + 1) / 4)` (the library's sqrt addition chain for its `P ≡ 3 mod 4`
modulus), validity checked by squaring back, and the result negated when its
parity does not match the requested oddness. -/
def decompressY (P : ℕ) (x : ZMod P) (wantOdd : Bool) : Option (ZMod P) :=
  let c := x ^ 3 + 7
  let y := c ^ ((P + 1) / 4)
  if y * y = c then
    some (if (decide (y.val % 2 = 1)) = wantOdd then y else -y)
  else none

/-- `Point.Marshal` (via `MarshalToSizedBuffer`): refuse the identity, then
emit the format byte (`0x03` for odd `y`, `0x02` for even) followed by the
32-byte big-endian `x` coordinate. -/
def CPoint.Marshal (P : ℕ) (v : CPoint P) : Except CodecError (List Byte) :=
  if v.isIdentity then .error .identityPoint
  else .ok ((if v.y.val % 2 = 1 then (3 : Byte) else 2) :: digitsBE 32 v.x.val)

/-- `Point.Unmarshal`: require at least 33 bytes; check the format byte;
parse `data[1:33]` as `x` and reject `x ≥ P` (the `SetByteSlice` overflow
flag); recover `y` of the requested oddness via `DecompressY`. -/
def PointUnmarshal (P : ℕ) (data : List Byte) : Except CodecError (CPoint P) :=
  if data.length < 33 then .error .tooSmall
  else if data.headI = (2 : Byte) ∨ data.headI = (3 : Byte) then
    if P ≤ fromBytesBE ((data.drop 1).take 32) then .error .xOverflow
    else
      match decompressY P ((fromBytesBE ((data.drop 1).take 32) : ℕ) : ZMod P)
          (decide (data.headI = (3 : Byte))) with
      | none => .error .notOnCurve
      | some y => .ok ⟨false, ((fromBytesBE ((data.drop 1).take 32) : ℕ) : ZMod P), y⟩
  else .error .badFormat

/-- `Scalar.Unmarshal`: require at least 32 bytes; parse `data[:32]` and
reject values `≥ q` (the `ModNScalar.SetByteSlice` overflow flag). -/
def ScalarUnmarshal (data : List Byte) : Except CodecError Scalar :=
  if data.length < 32 then .error .tooSmall
  else if secpQ ≤ fromBytesBE (data.take 32) then .error .scalarRange
  else .ok ((fromBytesBE (data.take 32) : ℕ) : Scalar)

/-! ## `protocols/cmp/keygen/config.go`: the Config artifact

`party.ID` is a string.  `safenum.Nat` values become `ℕ`
(`Nat.Mul(a, b, -1)` is the exact product; the middle `Choice` returned by
`safenum.Cmp` is `1` exactly when the operands are equal, so the source's
`eq == 0` tests inequality).  Go maps keyed by `party.ID` become association
lists; map iteration order only influences which party is named in an error,
never whether validation succeeds.  Pointer-typed fields of `Config` keep
their nil case as `Option`; the fields of a stored `Public` record are taken
to be present (a nil there is caught by the same "field is empty" error and
none of the claims depends on it). -/

/-- `party.ID`. -/
abbrev PartyID := String

/-- `keygen.Public`: the public record of one party. -/
structure PublicData (G : Type) where
  ECDSA : G
  N : ℕ
  S : ℕ
  T : ℕ

/-- `keygen.Config`. -/
structure Config (G : Type) where
  ID : PartyID
  Threshold : ℕ
  ECDSA : Option Scalar
  P : Option ℕ
  Q : Option ℕ
  Public : List (PartyID × PublicData G)
  RID : List Byte
  ChainKey : List Byte

/-- Go map lookup `c.Public[j]`. -/
def Config.lookup (c : Config G) (j : PartyID) : Option (PublicData G) :=
  (c.Public.find? (fun e => e.1 = j)).map (·.2)

/-- `keygen.validThreshold` on Go `int`s (`int(c.Threshold)` is exact since
`Threshold` is a `uint32`). -/
def validThreshold (t n : ℤ) : Bool :=
  if t < 0 ∨ t > 4294967295 then false
  else if n ≤ 0 ∨ t > n - 1 then false
  else true

/-- External validation collaborators used by `Config.Validate`
(`paillier.ValidatePrime`, `paillier.ValidateN`,
`pedersen.ValidateParameters`): out-of-scope libraries, modelled as oracles. -/
structure ValidateEnv where
  validatePrime : ℕ → Bool
  validateN : ℕ → Bool
  validatePedersen : ℕ → ℕ → ℕ → Bool

/-- `Public.validate` as a pass/fail check: the ECDSA share must not be the
identity, `N` must validate, and the Pedersen parameters must validate
against `N`.  (The per-field nil checks cannot fire on a total record.) -/
def PublicData.validateOk (env : ValidateEnv) (p : PublicData G) : Bool :=
  ¬ (p.ECDSA = (0 : G)) && env.validateN p.N && env.validatePedersen p.N p.S p.T

/-- The errors `Config.Validate` can return, one per `return` site. -/
inductive ValidateError
  | thresholdInvalid
  | fieldEmpty
  | secretZero
  | primeP
  | primeQ
  | partyInvalid (j : PartyID)
  | noSelfData
  | shareMismatch
  | pqNeqN
  deriving DecidableEq

/-- `Config.Validate` with base point `g`.  The branches follow the source in
order: threshold, nil fields, zero secret, the two prime checks, per-party
public validation, presence of the self record, `x_i·G = X_i`, and finally
the `P•Q ≠ N` check (`safenum`'s equality `Choice` is `0` iff the values
differ, so `eq == 0` raises the error exactly when `P*Q ≠ N`). -/
def Config.Validate (env : ValidateEnv) (g : G) (c : Config G) :
    Option ValidateError :=
  if ¬ validThreshold (c.Threshold : ℤ) (c.Public.length : ℤ) then
    some .thresholdInvalid
  else
    match c.ECDSA, c.P, c.Q with
    | some x, some p, some q =>
      if x = 0 then some .secretZero
      else if ¬ env.validatePrime p then some .primeP
      else if ¬ env.validatePrime q then some .primeQ
      else
        match c.Public.find? (fun e => ¬ e.2.validateOk env) with
        | some e => some (.partyInvalid e.1)
        | none =>
          match c.lookup c.ID with
          | none => some .noSelfData
          | some pub =>
            if ¬ (x • g = pub.ECDSA) then some .shareMismatch
            else if p * q ≠ pub.N then some .pqNeqN
            else none
    | _, _, _ => some .fieldEmpty

/-- Modelled from the spec: `party.IDSlice.Valid` (the `party` package is not
among the provided sources).  The spec requires the signers to be "sorted,
distinct". -/
def IDSliceValid (ids : List PartyID) : Bool :=
  decide (ids.Sorted (· ≤ ·)) && decide ids.Nodup

/-- `Config.CanSign`: threshold check on the signer count, validity of the
signer list, membership of self (`party.IDSlice.Contains` is membership),
and inclusion of every signer among the config's parties. -/
def Config.CanSign (c : Config G) (signers : List PartyID) : Bool :=
  validThreshold (c.Threshold : ℤ) (signers.length : ℤ) &&
  IDSliceValid signers &&
  signers.contains c.ID &&
  signers.all (fun j => (c.lookup j).isSome)

/-- External collaborators of `Config.DeriveChild` and `publicPoint`:
`bip32.DeriveScalar` (`internal/bip32` is not among the provided sources;
the spec gives `DeriveScalar(parentPoint, chainKey, index) →
(scalar, childChainKey, err)`), and the stable party-ID-to-scalar map used
by Lagrange interpolation (`party.ID.Scalar`, likewise missing). -/
structure DeriveEnv (G : Type) where
  deriveScalar : G → List Byte → ℕ → Option (Scalar × List Byte)
  idScalar : PartyID → Scalar

/-- Modelled from the spec: `polynomial.Lagrange`
(`pkg/math/polynomial/lagrange.go` is not among the provided sources).
The spec gives the Lagrange coefficient at 0 for party `j` over the set of
evaluation points as `λ_j = Π_{k ≠ j} s_k / (s_k − s_j)`. -/
def lagrange (idScalar : PartyID → Scalar) (ids : List PartyID)
    (j : PartyID) : Scalar :=
  ((ids.filter (fun k => k ≠ j)).map
    (fun k => idScalar k * (idScalar k - idScalar j)⁻¹)).prod

/-- `Config.publicPoint`: `Σ_j λ_j • X_j` over the parties of the config. -/
def Config.publicPoint (env : DeriveEnv G) (c : Config G) : G :=
  (c.Public.map
    (fun e => lagrange env.idScalar (c.Public.map (·.1)) e.1 • e.2.ECDSA)).sum

/-- `Config.DeriveChild` with base point `g`: derive `(scalar, newChainKey)`
from the public point and the chain key, add `scalar` to the secret share and
`scalar • g` to every public share, and keep everything else.  `none` covers
the BIP32 error return (and the Go panic on a nil secret, which no claim
exercises). -/
def Config.DeriveChild (env : DeriveEnv G) (g : G) (c : Config G) (i : ℕ) :
    Option (Config G) :=
  match env.deriveScalar (c.publicPoint env) c.ChainKey i with
  | none => none
  | some (scalar, newChainKey) =>
    match c.ECDSA with
    | none => none
    | some x =>
      some { Threshold := c.Threshold
             Public := c.Public.map (fun e =>
               (e.1, { ECDSA := scalar • g + e.2.ECDSA
                       N := e.2.N, S := e.2.S, T := e.2.T }))
             RID := c.RID
             ChainKey := newChainKey
             ID := c.ID
             ECDSA := some (scalar + x)
             P := c.P
             Q := c.Q }

/-! ## `protocols/cmp/sign` round 1

Paillier ciphertexts, nonces, Paillier public keys, Pedersen parameter sets,
hash states and enc-proofs are opaque handles produced and consumed by
external collaborators; they are embedded as `ℕ`-valued tokens, and the
collaborators (`sample`, `paillier.Enc`, `Helper.HashForID`,
`zkenc.NewProof`, `Helper.SendMessage`) as oracle fields of `SignEnv`.
Each of the two invocations of the randomized `Enc` gets its own oracle
(`encG` for `Gᵢ = Enc(γᵢ)`, `encK` for `Kᵢ = Enc(kᵢ)`), standing for the
two independent draws of encryption randomness. -/

/-- `paillier.Ciphertext` (opaque handle). -/
abbrev Ciphertext := ℕ

/-- A Paillier encryption nonce (opaque handle). -/
abbrev PaillierNonce := ℕ

/-- `paillier.PublicKey` (opaque handle). -/
abbrev PaillierPK := ℕ

/-- `pedersen.Parameters` (opaque handle). -/
abbrev PedersenParams := ℕ

/-- A cloned Fiat–Shamir hash state (opaque handle). -/
abbrev HashState := ℕ

/-- A `zkenc` proof (opaque handle). -/
abbrev EncProof := ℕ

/-- `zkenc.Public`: the public input of the enc range proof. -/
structure EncPublic where
  K : Ciphertext
  Prover : PaillierPK
  Aux : PedersenParams
  deriving DecidableEq

/-- `zkenc.Private`: the private witness of the enc range proof. -/
structure EncPrivate where
  K : ℤ
  Rho : PaillierNonce
  deriving DecidableEq

/-- The `Sign2` message content `{ProofEnc, K, G}`. -/
structure Sign2 where
  ProofEnc : EncProof
  K : Ciphertext
  G : Ciphertext
  deriving DecidableEq

/-- A point-to-point message: recipient plus `Sign2` content
(`Helper.MarshalMessage`). -/
structure MsgTo where
  recipient : PartyID
  content : Sign2
  deriving DecidableEq

/-- The oracle environment of `round1.Finalize`. -/
structure SignEnv where
  sampleGamma : Scalar
  sampleK : Scalar
  encG : PaillierPK → ℤ → Ciphertext × PaillierNonce
  encK : PaillierPK → ℤ → Ciphertext × PaillierNonce
  hashForID : PartyID → HashState
  newProof : HashState → EncPublic → EncPrivate → EncProof
  sendOk : MsgTo → Bool

/-- `sign.round1`: the state entering round 1.  The `round.Helper` supplies
`SelfID` and the sorted other-party list; the per-party Go maps become
functions. -/
structure Round1 (G : Type) where
  selfID : PartyID
  otherIDs : List PartyID
  PublicKey : G
  SecretECDSA : Scalar
  SecretPaillier : ℕ
  Paillier : PartyID → PaillierPK
  Pedersen : PartyID → PedersenParams
  ECDSA : PartyID → G
  Message : List Byte

/-- `sign.round2`: the state `round1.Finalize` transitions to.  The
`K`, `G` and `BigGammaShare` maps are built as singleton self-entries.
(The group type parameter is written `Pt` here because the structure has a
field named `G`, after the source's `Gᵢ` ciphertext map.) -/
structure Round2 (Pt : Type) where
  round1 : Round1 Pt
  K : List (PartyID × Ciphertext)
  G : List (PartyID × Ciphertext)
  BigGammaShare : List (PartyID × Pt)
  GammaShare : ℤ
  KShare : Scalar
  KNonce : PaillierNonce
  GNonce : PaillierNonce

/-- The error `round1.Finalize` can return (a failed `SendMessage`; the
worker pool collects the per-peer errors and the first non-nil one wins). -/
inductive SendError
  | sendFailed
  deriving DecidableEq

/-- `round1.Finalize` with base point `g`: sample `γᵢ` (with `Γᵢ = γᵢ • g`)
and `kᵢ`; encrypt both under the self Paillier key; for every other party `j`
build the enc proof of `Kᵢ` against `j`'s Pedersen parameters and send
`{proof, Kᵢ, Gᵢ}` to `j`; on success return the emitted messages and the
round-2 state. -/
def Round1.Finalize (env : SignEnv) (g : G) (r : Round1 G) :
    Except SendError (List MsgTo × Round2 G) :=
  let GammaShare := env.sampleGamma
  let BigGammaShare := GammaShare • g
  let GEnc := env.encG (r.Paillier r.selfID) (makeInt GammaShare)
  let KShare := env.sampleK
  let KEnc := env.encK (r.Paillier r.selfID) (makeInt KShare)
  let msgs := r.otherIDs.map (fun j =>
    { recipient := j
      content :=
        { ProofEnc := env.newProof (env.hashForID r.selfID)
            { K := KEnc.1, Prover := r.Paillier r.selfID, Aux := r.Pedersen j }
            { K := makeInt KShare, Rho := KEnc.2 }
          K := KEnc.1
          G := GEnc.1 } })
  match msgs.find? (fun m => ¬ env.sendOk m) with
  | some _ => .error .sendFailed
  | none =>
    .ok (msgs,
      { round1 := r
        K := [(r.selfID, KEnc.1)]
        G := [(r.selfID, GEnc.1)]
        BigGammaShare := [(r.selfID, BigGammaShare)]
        GammaShare := makeInt GammaShare
        KShare := KShare
        KNonce := KEnc.2
        GNonce := GEnc.2 })

/-! ## Concrete instances used by witnesses and counterexamples -/

/-- A trivial CBOR-encoder oracle. -/
def cbor0 : Bool → List Scalar → List Byte := fun _ _ => []

/-- A one-coefficient non-constant exponent polynomial (degree 0). -/
def e0 : Exponent Scalar := ⟨false, [1]⟩

/-- A concrete scalar polynomial `2 + 3·X`. -/
def poly0 : Polynomial := ⟨[2, 3]⟩

/-- A concrete public record. -/
def pub0 : PublicData Scalar := ⟨1, 6, 1, 1⟩

/-- A concrete one-party config with `P·Q = 2·3 = 6 = N`. -/
def cfg0 : Config Scalar :=
  { ID := "a", Threshold := 0, ECDSA := some 1, P := some 2, Q := some 3,
    Public := [("a", pub0)], RID := [], ChainKey := [] }

/-- An always-accepting validation environment. -/
def venv0 : ValidateEnv :=
  { validatePrime := fun _ => true, validateN := fun _ => true,
    validatePedersen := fun _ _ _ => true }

/-- A derivation environment whose BIP32 oracle always returns scalar 1. -/
def denv0 : DeriveEnv Scalar :=
  { deriveScalar := fun _ _ _ => some (1, []), idScalar := fun _ => 1 }

/-- A concrete signing-round-1 oracle environment. -/
def senv0 : SignEnv :=
  { sampleGamma := 1, sampleK := 2,
    encG := fun _ _ => (10, 11), encK := fun _ _ => (20, 21),
    hashForID := fun _ => 0, newProof := fun _ _ _ => 7,
    sendOk := fun _ => true }

/-- A concrete round-1 state with one other party. -/
def r1w : Round1 Scalar :=
  { selfID := "a", otherIDs := ["b"], PublicKey := 0, SecretECDSA := 0,
    SecretPaillier := 0, Paillier := fun _ => 0, Pedersen := fun _ => 0,
    ECDSA := fun _ => 0, Message := [] }

/-- 33 zero bytes. -/
def l33 : List Byte := List.replicate 33 0

/-- 33 zero bytes followed by a trailing byte. -/
def l34 : List Byte := l33 ++ [1]

/-- 32 zero bytes. -/
def s32 : List Byte := List.replicate 32 0

/-- 32 zero bytes followed by a trailing byte. -/
def s33 : List Byte := s32 ++ [1]

/-! ## Helper lemmas -/

theorem digitsBE_length (k n : ℕ) : (digitsBE k n).length = k := by
  induction k generalizing n with
  | zero => rfl
  | succ k ih => simp [digitsBE, ih]

theorem fromBytesBE_digitsBE (k n : ℕ) :
    fromBytesBE (digitsBE k n) = n % 256 ^ k := by
  induction k generalizing n with
  | zero => simp [digitsBE, fromBytesBE, Nat.mod_one]
  | succ k ih =>
    have hfold :
        fromBytesBE (digitsBE k (n / 256) ++ [mkByte n]) =
          256 * fromBytesBE (digitsBE k (n / 256)) + n % 256 := by
      unfold fromBytesBE
      rw [List.foldl_append]
      rfl
    rw [digitsBE, hfold, ih]
    rw [pow_succ, mul_comm (256 ^ k) 256, Nat.mod_mul]
    omega

theorem be32_length (n : ℕ) : (be32 n).length = 4 :=
  digitsBE_length 4 n

theorem horner_map_smul {G : Type} [AddCommGroup G] [Module Scalar G]
    (g : G) (x : Scalar) (l : List Scalar) :
    (l.map (fun c => c • g)).foldr (fun c acc => x • acc + c) 0 =
      (l.foldr (fun a acc => x * acc + a) 0) • g := by
  induction l with
  | nil => simp
  | cons a t ih =>
    simp only [List.map_cons, List.foldr_cons, ih]
    rw [add_smul, mul_smul]

theorem classic_foldl {G : Type} [AddCommGroup G] [Module Scalar G]
    (x : Scalar) (l : List G) (xp : Scalar) (acc : G) :
    (l.foldl (fun (st : Scalar × G) c => (st.1 * x, st.2 + st.1 • c))
        (xp, acc)).2 =
      acc + xp • (l.foldr (fun c r => x • r + c) 0) := by
  induction l generalizing xp acc with
  | nil => simp
  | cons c t ih =>
    simp only [List.foldl_cons, List.foldr_cons]
    rw [ih, smul_add, smul_smul]
    abel

/-! ## Claims -/

/-- C9: `polynomial.Sum` reads `polynomials[0]` before any length check, so
on the empty list the out-of-bounds branch (outer `none`) is reached, and on
every non-empty list it is not. -/
theorem c9_sum_empty_out_of_bounds {G : Type} [AddCommGroup G]
    (ps : List (Exponent G)) : Sum ps = none ↔ ps = [] := by
  cases ps <;> simp [Sum]

/-- C9 witness: `Sum` on a concrete non-empty list does not reach the
out-of-bounds branch. -/
theorem c9_sum_empty_out_of_bounds_witness : ¬ (Sum [e0] = none) := by
  rw [c9_sum_empty_out_of_bounds]
  simp

/-- C6 counterexample: for a non-constant exponent polynomial with one
coefficient (degree 0), the 4-byte header of `MarshalBinary` encodes the
coefficient count 1, not the degree 0. -/
theorem c6_counterexample :
    ¬ ((e0.MarshalBinary cbor0).take 4 = be32 e0.Degree.toNat) := by
  decide

/-- C6 (amended): `MarshalBinary` begins with 4 big-endian bytes encoding the
number of coefficients — the degree plus one for a non-constant polynomial,
the degree itself for a constant one — followed by the CBOR encoding of
`{IsConstant, Coefficients}`. -/
theorem c6_marshal_layout {G : Type} [AddCommGroup G] [Module Scalar G]
    (cborEnc : Bool → List G → List Byte) (e : Exponent G) :
    (e.MarshalBinary cborEnc).take 4 = be32 e.Coefficients.length ∧
    (e.MarshalBinary cborEnc).drop 4 = cborEnc e.IsConstant e.Coefficients ∧
    (e.Coefficients.length : ℤ) =
      (if e.IsConstant then e.Degree else e.Degree + 1) := by
  refine ⟨?_, ?_, ?_⟩
  · rw [Exponent.MarshalBinary, List.take_left' (be32_length _)]
  · rw [Exponent.MarshalBinary, List.drop_left' (be32_length _)]
  · unfold Exponent.Degree
    cases e.IsConstant <;> simp

/-- C2: the exponent image of a polynomial evaluates to the scalar
evaluation acting on the base point, `ExponentOf(f).Evaluate(x) =
f.Evaluate(x) • g`, including the `IsConstant` case `a₀ = 0`. -/
theorem c2_exponent_evaluate {G : Type} [AddCommGroup G] [Module Scalar G]
    [DecidableEq G] (g : G) (f : Polynomial) (x : Scalar)
    (h : f.coefficients ≠ []) :
    (NewPolynomialExponent g f).Evaluate x = f.Evaluate x • g := by
  obtain ⟨l⟩ := f
  match l, h with
  | a :: t, _ =>
    by_cases h0 : a = 0
    · subst h0
      simp only [NewPolynomialExponent, Polynomial.Evaluate, Exponent.Evaluate,
        List.headI, if_pos rfl, List.tail_cons, List.foldr_cons]
      rw [horner_map_smul]
      simp [mul_smul]
    · simp only [NewPolynomialExponent, Polynomial.Evaluate, Exponent.Evaluate,
        List.headI, if_neg h0]
      rw [horner_map_smul]
      simp [h0]

/-- C2 witness at a concrete polynomial `2 + 3·X`, base point 1, `x = 5`. -/
theorem c2_exponent_evaluate_witness :
    (NewPolynomialExponent (1 : Scalar) poly0).Evaluate 5 =
      poly0.Evaluate 5 • (1 : Scalar) :=
  c2_exponent_evaluate 1 poly0 5 (by simp [poly0])

/-- C3: Horner evaluation (`Evaluate`) and the power-by-power evaluation
(`evaluateClassic`) of an exponent polynomial agree on every input. -/
theorem c3_evaluate_agrees_classic {G : Type} [AddCommGroup G]
    [Module Scalar G] (p : Exponent G) (x : Scalar) :
    p.Evaluate x = p.evaluateClassic x := by
  unfold Exponent.Evaluate Exponent.evaluateClassic
  rw [classic_foldl]
  cases hc : p.IsConstant <;> simp

theorem validThreshold_iff (t n : ℤ) (h0 : 0 ≤ t) (h1 : t ≤ 4294967295) :
    validThreshold t n = true ↔ t < n := by
  unfold validThreshold
  split_ifs with hA hB <;> simp <;> omega

/-- C4: `CanSign(signers)` returns true iff the signer list is larger than
the threshold, sorted and duplicate-free, contains the self ID, and is a
subset of the config's party set; otherwise false.  (The hypothesis records
that `Threshold` is a Go `uint32`.) -/
theorem c4_can_sign_iff {G : Type} [AddCommGroup G] [Module Scalar G]
    [DecidableEq G] (c : Config G) (signers : List PartyID)
    (hT : c.Threshold < 4294967296) :
    c.CanSign signers = true ↔
      ((c.Threshold : ℤ) < (signers.length : ℤ) ∧
       signers.Sorted (· ≤ ·) ∧ signers.Nodup ∧ c.ID ∈ signers ∧
       ∀ j ∈ signers, (c.lookup j).isSome = true) := by
  unfold Config.CanSign IDSliceValid
  simp only [Bool.and_eq_true, decide_eq_true_eq, List.all_eq_true,
    List.elem_iff]
  rw [validThreshold_iff _ _ (by omega) (by omega)]
  tauto

/-- C4 witness at the concrete one-party config and signer list `["a"]`. -/
theorem c4_can_sign_iff_witness :
    cfg0.CanSign ["a"] = true ↔
      ((cfg0.Threshold : ℤ) < ((["a"] : List PartyID).length : ℤ) ∧
       (["a"] : List PartyID).Sorted (· ≤ ·) ∧
       (["a"] : List PartyID).Nodup ∧
       cfg0.ID ∈ (["a"] : List PartyID) ∧
       ∀ j ∈ (["a"] : List PartyID), (cfg0.lookup j).isSome = true) :=
  c4_can_sign_iff cfg0 ["a"] (by decide)

/-- C1: when every validation check preceding the Paillier-modulus check
passes, `Config.Validate` returns the `P•Q ≠ N` error exactly when `P·Q`
differs from the stored self modulus `N`, and no error at all otherwise
(`safenum`'s equality `Choice` is `0` precisely on unequal operands). -/
theorem c1_validate_pq_check {G : Type} [AddCommGroup G] [Module Scalar G]
    [DecidableEq G] (env : ValidateEnv) (g : G) (c : Config G)
    (x : Scalar) (p q : ℕ) (pub : PublicData G)
    (hth : validThreshold (c.Threshold : ℤ) (c.Public.length : ℤ) = true)
    (hE : c.ECDSA = some x) (hP : c.P = some p) (hQ : c.Q = some q)
    (hx : x ≠ 0)
    (hp : env.validatePrime p = true) (hq : env.validatePrime q = true)
    (hpub : ∀ e ∈ c.Public, e.2.validateOk env = true)
    (hself : c.lookup c.ID = some pub)
    (hshare : x • g = pub.ECDSA) :
    c.Validate env g =
      (if p * q = pub.N then none else some ValidateError.pqNeqN) := by
  have hfind : c.Public.find? (fun e => ¬ e.2.validateOk env) = none := by
    rw [List.find?_eq_none]
    intro e he
    simp [hpub e he]
  unfold Config.Validate
  rw [if_neg (by simp [hth])]
  rw [hE, hP, hQ]
  dsimp only
  rw [if_neg (by simp [hx]), if_neg (by simp [hp]), if_neg (by simp [hq]),
    hfind]
  dsimp only
  rw [hself]
  dsimp only
  rw [if_neg (by simp [hshare])]
  by_cases hN : p * q = pub.N
  · rw [if_neg (by simp [hN]), if_pos hN]
  · rw [if_pos hN, if_neg hN]

/-- C1 witness: the concrete config with `P·Q = 2·3 = 6 = N` validates with
no error. -/
theorem c1_validate_pq_check_witness :
    cfg0.Validate venv0 (1 : Scalar) =
      (if 2 * 3 = pub0.N then none else some ValidateError.pqNeqN) :=
  c1_validate_pq_check venv0 1 cfg0 1 2 3 pub0 (by decide) rfl rfl rfl
    (by decide) rfl rfl
    (by
      intro e he
      simp only [cfg0, List.mem_singleton] at he
      subst he
      simp only [PublicData.validateOk, venv0, pub0, Bool.and_true]
      decide)
    rfl (by simp [pub0, smul_eq_mul])

/-- C5: on an index where BIP32 derivation succeeds with scalar `d`,
`DeriveChild` returns a config whose secret share is `x + d`, whose public
shares are each `X_j + d • g` with `N`, `S`, `T` unchanged, and whose
`P`, `Q`, `RID`, self ID and threshold equal the original's.  (The embedding
is pure, so the original config is unchanged by construction.) -/
theorem c5_derive_child {G : Type} [AddCommGroup G] [Module Scalar G]
    [DecidableEq G] (env : DeriveEnv G) (g : G) (c : Config G) (i : ℕ)
    (d : Scalar) (ck : List Byte) (x : Scalar)
    (hd : env.deriveScalar (c.publicPoint env) c.ChainKey i = some (d, ck))
    (hx : c.ECDSA = some x) :
    ∃ c2, c.DeriveChild env g i = some c2 ∧
      c2.ECDSA = some (x + d) ∧
      c2.Public = c.Public.map (fun e =>
        (e.1, { ECDSA := e.2.ECDSA + d • g,
                N := e.2.N, S := e.2.S, T := e.2.T })) ∧
      c2.P = c.P ∧ c2.Q = c.Q ∧ c2.RID = c.RID ∧
      c2.ChainKey = ck ∧ c2.ID = c.ID ∧ c2.Threshold = c.Threshold := by
  simp only [Config.DeriveChild, hd, hx]
  refine ⟨_, rfl, by simp [add_comm], ?_, rfl, rfl, rfl, rfl, rfl, rfl⟩
  exact List.map_congr_left (fun e _ => by rw [add_comm (d • g) e.2.ECDSA])

/-- C5 witness at the concrete config and the oracle returning scalar 1. -/
theorem c5_derive_child_witness :
    ∃ c2, cfg0.DeriveChild denv0 (1 : Scalar) 0 = some c2 ∧
      c2.ECDSA = some (1 + 1) ∧
      c2.Public = cfg0.Public.map (fun e =>
        (e.1, { ECDSA := e.2.ECDSA + (1 : Scalar) • (1 : Scalar),
                N := e.2.N, S := e.2.S, T := e.2.T })) ∧
      c2.P = cfg0.P ∧ c2.Q = cfg0.Q ∧ c2.RID = cfg0.RID ∧
      c2.ChainKey = [] ∧ c2.ID = cfg0.ID ∧ c2.Threshold = cfg0.Threshold :=
  c5_derive_child denv0 1 cfg0 0 1 [] 1 rfl rfl

/-- C8: round 1's `Finalize`, when every send succeeds, emits to each other
party `j` a message `{enc-proof of Kᵢ against j's Pedersen parameters, Kᵢ,
Gᵢ}` and transitions to a round-2 state whose `K`, `G` and `BigGammaShare`
maps hold exactly the self entries and which carries `γᵢ` (as an integer),
`kᵢ`, `ρᵢ` and `νᵢ`. -/
theorem c8_round1_finalize {G : Type} [AddCommGroup G] [Module Scalar G]
    (env : SignEnv) (g : G) (r : Round1 G)
    (hsend : ∀ m, env.sendOk m = true) :
    ∃ msgs r2,
      r.Finalize env g = .ok (msgs, r2) ∧
      msgs = r.otherIDs.map (fun j =>
        { recipient := j
          content :=
            { ProofEnc := env.newProof (env.hashForID r.selfID)
                { K := (env.encK (r.Paillier r.selfID)
                          (makeInt env.sampleK)).1
                  Prover := r.Paillier r.selfID
                  Aux := r.Pedersen j }
                { K := makeInt env.sampleK
                  Rho := (env.encK (r.Paillier r.selfID)
                            (makeInt env.sampleK)).2 }
              K := (env.encK (r.Paillier r.selfID) (makeInt env.sampleK)).1
              G := (env.encG (r.Paillier r.selfID)
                      (makeInt env.sampleGamma)).1 } }) ∧
      r2.round1 = r ∧
      r2.K = [(r.selfID,
        (env.encK (r.Paillier r.selfID) (makeInt env.sampleK)).1)] ∧
      r2.G = [(r.selfID,
        (env.encG (r.Paillier r.selfID) (makeInt env.sampleGamma)).1)] ∧
      r2.BigGammaShare = [(r.selfID, env.sampleGamma • g)] ∧
      r2.GammaShare = makeInt env.sampleGamma ∧
      r2.KShare = env.sampleK ∧
      r2.KNonce = (env.encK (r.Paillier r.selfID) (makeInt env.sampleK)).2 ∧
      r2.GNonce = (env.encG (r.Paillier r.selfID)
        (makeInt env.sampleGamma)).2 := by
  refine ⟨_,
    { round1 := r
      K := [(r.selfID, (env.encK (r.Paillier r.selfID)
              (makeInt env.sampleK)).1)]
      G := [(r.selfID, (env.encG (r.Paillier r.selfID)
              (makeInt env.sampleGamma)).1)]
      BigGammaShare := [(r.selfID, env.sampleGamma • g)]
      GammaShare := makeInt env.sampleGamma
      KShare := env.sampleK
      KNonce := (env.encK (r.Paillier r.selfID) (makeInt env.sampleK)).2
      GNonce := (env.encG (r.Paillier r.selfID) (makeInt env.sampleGamma)).2 },
    ?_, rfl, rfl, rfl, rfl, rfl, rfl, rfl, rfl, rfl⟩
  have hfind :
      (r.otherIDs.map (fun j =>
        ({ recipient := j
           content :=
             { ProofEnc := env.newProof (env.hashForID r.selfID)
                 { K := (env.encK (r.Paillier r.selfID)
                           (makeInt env.sampleK)).1
                   Prover := r.Paillier r.selfID
                   Aux := r.Pedersen j }
                 { K := makeInt env.sampleK
                   Rho := (env.encK (r.Paillier r.selfID)
                             (makeInt env.sampleK)).2 }
               K := (env.encK (r.Paillier r.selfID) (makeInt env.sampleK)).1
               G := (env.encG (r.Paillier r.selfID)
                       (makeInt env.sampleGamma)).1 } } : MsgTo))).find?
        (fun m => ¬ env.sendOk m) = none := by
    rw [List.find?_eq_none]
    intro m _
    simp [hsend m]
  simp only [Round1.Finalize]
  rw [hfind]

/-- C8 witness at the concrete environment and one-other-party round state. -/
theorem c8_round1_finalize_witness :
    ∃ msgs r2,
      r1w.Finalize senv0 (1 : Scalar) = .ok (msgs, r2) ∧
      msgs = r1w.otherIDs.map (fun j =>
        { recipient := j
          content :=
            { ProofEnc := senv0.newProof (senv0.hashForID r1w.selfID)
                { K := (senv0.encK (r1w.Paillier r1w.selfID)
                          (makeInt senv0.sampleK)).1
                  Prover := r1w.Paillier r1w.selfID
                  Aux := r1w.Pedersen j }
                { K := makeInt senv0.sampleK
                  Rho := (senv0.encK (r1w.Paillier r1w.selfID)
                            (makeInt senv0.sampleK)).2 }
              K := (senv0.encK (r1w.Paillier r1w.selfID)
                      (makeInt senv0.sampleK)).1
              G := (senv0.encG (r1w.Paillier r1w.selfID)
                      (makeInt senv0.sampleGamma)).1 } }) ∧
      r2.round1 = r1w ∧
      r2.K = [(r1w.selfID,
        (senv0.encK (r1w.Paillier r1w.selfID) (makeInt senv0.sampleK)).1)] ∧
      r2.G = [(r1w.selfID,
        (senv0.encG (r1w.Paillier r1w.selfID)
          (makeInt senv0.sampleGamma)).1)] ∧
      r2.BigGammaShare = [(r1w.selfID, senv0.sampleGamma • (1 : Scalar))] ∧
      r2.GammaShare = makeInt senv0.sampleGamma ∧
      r2.KShare = senv0.sampleK ∧
      r2.KNonce = (senv0.encK (r1w.Paillier r1w.selfID)
        (makeInt senv0.sampleK)).2 ∧
      r2.GNonce = (senv0.encG (r1w.Paillier r1w.selfID)
        (makeInt senv0.sampleGamma)).2 :=
  c8_round1_finalize senv0 1 r1w (fun _ => rfl)

theorem pointUnmarshal_take (P : ℕ) (d : List Byte) (hd : 33 ≤ d.length) :
    PointUnmarshal P d = PointUnmarshal P (d.take 33) := by
  obtain ⟨a, t, rfl⟩ : ∃ a t, d = a :: t := by
    cases d with
    | nil => simp at hd
    | cons a t => exact ⟨a, t, rfl⟩
  simp only [List.length_cons] at hd
  have htake : (a :: t).take 33 = a :: t.take 32 := by
    rw [show (33 : ℕ) = 32 + 1 from rfl, List.take_succ_cons]
  rw [htake]
  have hlen1 : ¬ (a :: t).length < 33 := by
    simp only [List.length_cons]
    omega
  have hlen2 : ¬ (a :: t.take 32).length < 33 := by
    simp only [List.length_cons, List.length_take]
    omega
  have hw : (((a :: t.take 32) : List Byte).drop 1).take 32 =
      (((a :: t) : List Byte).drop 1).take 32 := by
    show ((t.take 32).take 32 : List Byte) = t.take 32
    rw [List.take_take]
    simp
  unfold PointUnmarshal
  rw [if_neg hlen1, if_neg hlen2, hw]
  rfl

theorem pointUnmarshal_tooSmall (P : ℕ) (d : List Byte) :
    PointUnmarshal P d = .error CodecError.tooSmall ↔ d.length < 33 := by
  constructor
  · intro h
    by_contra hge
    push_neg at hge
    unfold PointUnmarshal at h
    rw [if_neg (by omega)] at h
    split at h
    · split at h
      · simp at h
      · split at h <;> simp at h
    · simp at h
  · intro h
    unfold PointUnmarshal
    rw [if_pos h]

theorem scalarUnmarshal_take (d : List Byte) (hd : 32 ≤ d.length) :
    ScalarUnmarshal d = ScalarUnmarshal (d.take 32) := by
  have hlen2 : ¬ (d.take 32).length < 32 := by
    simp only [List.length_take]
    omega
  have hw : ((d.take 32).take 32 : List Byte) = d.take 32 := by
    rw [List.take_take]
    simp
  unfold ScalarUnmarshal
  rw [if_neg (by omega), if_neg hlen2, hw]

theorem scalarUnmarshal_tooSmall (d : List Byte) :
    ScalarUnmarshal d = .error CodecError.tooSmall ↔ d.length < 32 := by
  constructor
  · intro h
    by_contra hge
    push_neg at hge
    unfold ScalarUnmarshal at h
    rw [if_neg (by omega)] at h
    split at h <;> simp at h
  · intro h
    unfold ScalarUnmarshal
    rw [if_pos h]

/-- C10: `Point.Unmarshal` and `Scalar.Unmarshal` depend only on the first
33 (resp. 32) bytes of their input — for inputs at least that long the
trailing bytes are ignored — and the length check rejects exactly the
too-short inputs. -/
theorem c10_unmarshal_first_bytes :
    (∀ d : List Byte, 33 ≤ d.length →
      PointUnmarshal secpP d = PointUnmarshal secpP (d.take 33)) ∧
    (∀ d : List Byte,
      PointUnmarshal secpP d = .error CodecError.tooSmall ↔ d.length < 33) ∧
    (∀ d : List Byte, 32 ≤ d.length →
      ScalarUnmarshal d = ScalarUnmarshal (d.take 32)) ∧
    (∀ d : List Byte,
      ScalarUnmarshal d = .error CodecError.tooSmall ↔ d.length < 32) := by
  exact ⟨pointUnmarshal_take secpP, pointUnmarshal_tooSmall secpP,
    scalarUnmarshal_take, scalarUnmarshal_tooSmall⟩

theorem sqrt_candidate_sq {P : ℕ} [Fact P.Prime] (h4 : P % 4 = 3)
    (y : ZMod P) :
    ((y * y) ^ ((P + 1) / 4)) * ((y * y) ^ ((P + 1) / 4)) = y * y := by
  have hP : P.Prime := Fact.out
  have h2 : 2 ≤ P := hP.two_le
  have h4' : 4 * ((P + 1) / 4) = P + 1 := by omega
  rcases eq_or_ne y 0 with h0 | h0
  · subst h0
    rw [mul_zero, zero_pow (by omega : (P + 1) / 4 ≠ 0), mul_zero]
  · have hy : y ^ (P - 1) = 1 := ZMod.pow_card_sub_one_eq_one h0
    calc ((y * y) ^ ((P + 1) / 4)) * ((y * y) ^ ((P + 1) / 4))
        = (y * y) ^ (2 * ((P + 1) / 4)) := by rw [two_mul, pow_add]
      _ = y ^ (2 * (2 * ((P + 1) / 4))) := by rw [← sq, ← pow_mul]
      _ = y ^ (P - 1 + 2) := by
            congr 1
            omega
      _ = y ^ (P - 1) * y ^ 2 := by rw [pow_add]
      _ = y * y := by rw [hy, one_mul, sq]

theorem sqrt_eq_or_eq_neg {P : ℕ} [Fact P.Prime] (r y : ZMod P)
    (h : r * r = y * y) : r = y ∨ r = -y := by
  have hz : (r - y) * (r + y) = 0 := by linear_combination h
  rcases mul_eq_zero.mp hz with h1 | h1
  · exact Or.inl (sub_eq_zero.mp h1)
  · exact Or.inr (eq_neg_of_add_eq_zero_left h1)

theorem neg_val_odd {P : ℕ} [NeZero P] (hP2 : P % 2 = 1) (y : ZMod P)
    (h0 : y ≠ 0) : ((-y).val % 2 = 1) ↔ ¬ (y.val % 2 = 1) := by
  rw [ZMod.neg_val, if_neg h0]
  have h1 : y.val < P := ZMod.val_lt y
  have h2 : y.val ≠ 0 := fun h => h0 (by rwa [← ZMod.val_eq_zero])
  omega

/-- C7: for every non-identity point of the curve, `Unmarshal ∘ Marshal` is
the identity: marshalling emits the parity byte and the 32-byte big-endian
`x`, and unmarshalling recovers the same point.  Stated over any field
modulus `P` that is prime, `≡ 3 mod 4` and at most 32 bytes wide — the
properties of the fixed secp256k1 prime `secpP` the library relies on. -/
theorem c7_point_marshal_roundtrip (P : ℕ) (hP : P.Prime) (h4 : P % 4 = 3)
    (hle : P ≤ 256 ^ 32) (v : CPoint P) (hid : v.isIdentity = false)
    (hcurve : v.y * v.y = v.x ^ 3 + 7) :
    ∃ data, CPoint.Marshal P v = .ok data ∧ PointUnmarshal P data = .ok v := by
  haveI : Fact P.Prime := ⟨hP⟩
  haveI : NeZero P := ⟨hP.pos.ne'⟩
  refine ⟨(if v.y.val % 2 = 1 then (3 : Byte) else 2) :: digitsBE 32 v.x.val,
    ?_, ?_⟩
  · unfold CPoint.Marshal
    rw [if_neg (by simp [hid])]
  · have hlen : ¬ ((if v.y.val % 2 = 1 then (3 : Byte) else 2) ::
        digitsBE 32 v.x.val).length < 33 := by
      simp [digitsBE_length]
    unfold PointUnmarshal
    rw [if_neg hlen]
    simp only [List.headI_cons, List.drop_succ_cons, List.drop_zero]
    have hxval : fromBytesBE ((digitsBE 32 v.x.val).take 32) = v.x.val := by
      rw [List.take_of_length_le (le_of_eq (digitsBE_length 32 v.x.val)),
        fromBytesBE_digitsBE]
      exact Nat.mod_eq_of_lt (lt_of_lt_of_le (ZMod.val_lt v.x) hle)
    rw [hxval]
    have hfmt : (if v.y.val % 2 = 1 then (3 : Byte) else 2) = (2 : Byte) ∨
        (if v.y.val % 2 = 1 then (3 : Byte) else 2) = (3 : Byte) := by
      by_cases h : v.y.val % 2 = 1 <;> simp [h]
    rw [if_pos hfmt, if_neg (not_le.mpr (ZMod.val_lt v.x)),
      ZMod.natCast_rightInverse v.x]
    have hwant : decide ((if v.y.val % 2 = 1 then (3 : Byte) else 2) =
        (3 : Byte)) = decide (v.y.val % 2 = 1) := by
      by_cases h : v.y.val % 2 = 1 <;> simp [h]
    have hdec : decompressY P v.x
        (decide ((if v.y.val % 2 = 1 then (3 : Byte) else 2) = (3 : Byte))) =
        some v.y := by
      unfold decompressY
      rw [hwant, ← hcurve]
      rw [if_pos (sqrt_candidate_sq h4 v.y)]
      rcases sqrt_eq_or_eq_neg ((v.y * v.y) ^ ((P + 1) / 4)) v.y
          (sqrt_candidate_sq h4 v.y) with he | he
      · rw [he, if_pos rfl]
      · rcases eq_or_ne v.y 0 with h0 | h0
        · rw [he, h0, neg_zero, if_pos rfl]
        · have hpar := neg_val_odd (by omega : P % 2 = 1) v.y h0
          rw [he]
          have hne : decide ((-v.y).val % 2 = 1) ≠
              decide (v.y.val % 2 = 1) := by
            by_cases hp : v.y.val % 2 = 1 <;> simp [hp, hpar]
          rw [if_neg hne, neg_neg]
    rw [hdec]
    obtain ⟨i, x, y⟩ := v
    simp only at hid hcurve ⊢
    rw [hid]

/-- C7 witness: the point `(2, 2)` on `y² = x³ + 7` over `𝔽₁₁`
(`11 ≡ 3 mod 4`) survives the marshal/unmarshal round trip. -/
theorem c7_point_marshal_roundtrip_witness :
    ∃ data, CPoint.Marshal 11 ⟨false, 2, 2⟩ = .ok data ∧
      PointUnmarshal 11 data = .ok ⟨false, 2, 2⟩ :=
  c7_point_marshal_roundtrip 11 (by norm_num) (by norm_num)
    (by norm_num) ⟨false, 2, 2⟩ rfl (by decide)

/-- C10 witness: a 34-byte input decodes identically to its 33-byte head. -/
theorem c10_unmarshal_first_bytes_witness :
    PointUnmarshal secpP l34 = PointUnmarshal secpP (l34.take 33) :=
  c10_unmarshal_first_bytes.1 l34 (by decide)

end MPS
